import Mathlib

/-
Verification development for a Go implementation of a POSIX-style shell
(package `app`: `command.go`, `shell.go`, `builtins.go`, `helpers.go`).

The embedding works at the character level: Go strings are modelled as
Lean `String` (a structure around `List Char`); Go's byte-wise scans over
UTF-8 strings coincide with the character-wise model on all inputs whose
delimiter comparisons involve ASCII characters (UTF-8 continuation bytes
are >= 0x80 and never equal an ASCII delimiter), so the tokenizer model
below is extensionally faithful.

OS interaction (file system, working directory, process spawning, PATH
stat calls) is modelled by explicit state and oracle functions carried in
`ShellEnv` / passed as arguments: a file system is a partial map from
path to contents, `stat` is an oracle returning file metadata, `chdirOk`
tells whether `os.Chdir` succeeds on a path, and `externalRun` gives the
(stdout, stderr) bytes produced by an external process.
-/

/-! ## Go standard-library helpers (character-level models) -/

/-- Model of Go `unicode.IsSpace`: the Unicode White_Space property
(the exact rune set used by `strings.Fields` and `strings.TrimSpace`). -/
def isGoSpace (c : Char) : Bool :=
  c.toNat ∈ [0x9, 0xA, 0xB, 0xC, 0xD, 0x20, 0x85, 0xA0, 0x1680,
    0x2000, 0x2001, 0x2002, 0x2003, 0x2004, 0x2005, 0x2006, 0x2007,
    0x2008, 0x2009, 0x200A, 0x2028, 0x2029, 0x202F, 0x205F, 0x3000]

/-- Character-level model of Go `strings.TrimSpace`: drop leading and
trailing Unicode whitespace. -/
def goTrimChars (l : List Char) : List Char :=
  ((l.dropWhile isGoSpace).reverse.dropWhile isGoSpace).reverse

/-- Model of Go `strings.TrimSpace` on `String`. -/
def goTrimSpace (s : String) : String :=
  ⟨goTrimChars s.data⟩

/-- Accumulator loop of `goFields`: `cur` is the word being built. -/
def goFieldsAcc : List Char → List Char → List (List Char)
  | [], cur => if cur = [] then [] else [cur]
  | c :: cs, cur =>
    if isGoSpace c then
      if cur = [] then goFieldsAcc cs [] else cur :: goFieldsAcc cs []
    else goFieldsAcc cs (cur ++ [c])

/-- Character-level model of Go `strings.Fields`: split around runs of
Unicode whitespace, returning the non-empty maximal words. -/
def goFields (l : List Char) : List (List Char) :=
  goFieldsAcc l []

/-- Character-level model of Go `strings.Split(s, sep)` for a one-character
separator `sep`. -/
def goSplitChar (sep : Char) : List Char → List (List Char)
  | [] => [[]]
  | c :: cs =>
    if c = sep then [] :: goSplitChar sep cs
    else
      match goSplitChar sep cs with
      | [] => [[c]]
      | t :: ts => (c :: t) :: ts

/-- Model of Go `strings.Split` on `String` (one-character separator). -/
def goSplit (sep : Char) (s : String) : List String :=
  (goSplitChar sep s.data).map (⟨·⟩)

/-- Character-level model of Go `strings.Join(l, sep)` for a one-character
separator. -/
def goJoinChars (sep : Char) : List (List Char) → List Char
  | [] => []
  | [l] => l
  | l :: l' :: ls => l ++ sep :: goJoinChars sep (l' :: ls)

/-- Model of Go `strings.Join` on `String` (one-character separator). -/
def goJoin (sep : Char) (l : List String) : String :=
  ⟨goJoinChars sep (l.map String.data)⟩

/-- Digit-string value used by `goAtoi`; fails on the empty string or any
non-digit character. -/
def goDigitsVal (l : List Char) : Option Nat :=
  if l ≠ [] ∧ l.all (·.isDigit) then
    some (l.foldl (fun n c => n * 10 + (c.toNat - 48)) 0)
  else none

/-- Model of Go `strconv.Atoi`: optional sign followed by at least one
decimal digit. (Go additionally fails on 64-bit overflow, which is not
modelled; no theorem below depends on overflowing inputs.) -/
def goAtoi (s : String) : Option Int :=
  match s.data with
  | '+' :: ds => (goDigitsVal ds).map Int.ofNat
  | '-' :: ds => (goDigitsVal ds).map (fun n => -(n : Int))
  | ds => (goDigitsVal ds).map Int.ofNat

/-- Model of Go `path/filepath.Join` on two components as used by
`isInPath` (the final `Clean` pass is not modelled; no comparison below
depends on `Clean`-normalisation). -/
def filepathJoin (a b : String) : String :=
  if a = "" then b else if b = "" then a else a ++ "/" ++ b

/-! ## The quote-aware tokenizer (`parseQuotedArgs`, command.go:120-162)

The Go loop carries `inQuotes : bool`, `quoteChar : byte` (0 when not in
quotes), the current token builder and the emitted-token list. The model
recurses over the remaining input; the two-character patterns give the
`i+1 < len(input)` lookahead of the escape rule. -/

/-- Loop of `parseQuotedArgs` (command.go:126-156). Arguments:
remaining input, `inQuotes`, `quoteChar` (`Char.ofNat 0` = Go `byte(0)`),
current token being built, tokens emitted so far. -/
def parseQuotedArgsLoop : List Char → Bool → Char → List Char → List (List Char) → List (List Char)
  | [], _, _, cur, acc => if cur = [] then acc else acc ++ [cur]
  | [c], inq, qc, cur, acc =>
    -- last character: the escape branch requires a lookahead character,
    -- so only the non-escape rules of the loop body can fire
    if ¬inq ∧ (c = '\'' ∨ c = '"') then
      parseQuotedArgsLoop [] true c cur acc
    else if inq ∧ c = qc then
      parseQuotedArgsLoop [] false (Char.ofNat 0) cur acc
    else if c = ' ' ∧ ¬inq then
      if cur = [] then parseQuotedArgsLoop [] inq qc [] acc
      else parseQuotedArgsLoop [] inq qc [] (acc ++ [cur])
    else
      parseQuotedArgsLoop [] inq qc (cur ++ [c]) acc
  | c :: n :: rest, inq, qc, cur, acc =>
    if c = '\\' ∧ qc ≠ '\'' then
      -- command.go:129-141: backslash with a lookahead, outside single quotes
      if qc = '"' then
        if n = '\\' ∨ n = '"' then
          parseQuotedArgsLoop rest inq qc (cur ++ [n]) acc
        else
          parseQuotedArgsLoop (n :: rest) inq qc (cur ++ ['\\']) acc
      else
        parseQuotedArgsLoop rest inq qc (cur ++ [n]) acc
    else if ¬inq ∧ (c = '\'' ∨ c = '"') then
      parseQuotedArgsLoop (n :: rest) true c cur acc
    else if inq ∧ c = qc then
      parseQuotedArgsLoop (n :: rest) false (Char.ofNat 0) cur acc
    else if c = ' ' ∧ ¬inq then
      if cur = [] then parseQuotedArgsLoop (n :: rest) inq qc [] acc
      else parseQuotedArgsLoop (n :: rest) inq qc [] (acc ++ [cur])
    else
      parseQuotedArgsLoop (n :: rest) inq qc (cur ++ [c]) acc

/-- Model of `(*Shell).parseQuotedArgs` (command.go:120-162). -/
def parseQuotedArgs (l : List Char) : List (List Char) :=
  parseQuotedArgsLoop l false (Char.ofNat 0) [] []

/-- Does the input contain a quote or backslash character?  Model of
`strings.ContainsAny(input, "'\"\\")` (command.go:27). -/
def containsQuoteChar (l : List Char) : Bool :=
  l.any (fun c => c = '\'' || c = '"' || c = '\\')

/-- The tokenizer as selected by `parseInput` (command.go:27-31): the
quote-aware scanner when a quote/backslash character is present, else
whitespace-splitting. Input is the already-trimmed line. -/
def tokenize (l : List Char) : List (List Char) :=
  if containsQuoteChar l then parseQuotedArgs l else goFields l

/-! ## Command descriptors and the operator scan (`parseInput`, command.go:19-61) -/

/-- Model of the Go struct `Command` (command.go:10-17): one pipeline
stage. `next` models the `*Command` pointer (`none` = nil). An empty
`redirectFile` means no redirection, as in Go where the zero value is
the empty string. -/
inductive Command where
  | mk (name : String) (args : List String) (redirectFile : String)
       (redirectStderr : Bool) (appendMode : Bool) (next : Option Command)

/-- Field `Name` of `Command`. -/
def Command.name : Command → String
  | .mk n _ _ _ _ _ => n

/-- Field `Args` of `Command`. -/
def Command.args : Command → List String
  | .mk _ a _ _ _ _ => a

/-- Field `RedirectFile` of `Command`. -/
def Command.redirectFile : Command → String
  | .mk _ _ r _ _ _ => r

/-- Field `RedirectStderr` of `Command`. -/
def Command.redirectStderr : Command → Bool
  | .mk _ _ _ s _ _ => s

/-- Field `AppendMode` of `Command`. -/
def Command.appendMode : Command → Bool
  | .mk _ _ _ _ a _ => a

/-- Field `Next` of `Command`. -/
def Command.next : Command → Option Command
  | .mk _ _ _ _ _ n => n

/-- The zero value `Command{}` returned by `parseInput` on blank input. -/
def emptyCommand : Command := .mk "" [] "" false false none

/-- The redirect-operator return (command.go:38-53): target is the token
after the operator, the spliced token list `args[:i] ++ args[i+2:]`
supplies name and args. `none` models the Go panic `args[0]` when that
spliced list is empty. `pre` is `args[:i]`, `rest` is `args[i+2:]`. -/
def redirReturn (pre : List String) (target : String) (rest : List String)
    (stderr append : Bool) : Option Command :=
  match pre ++ rest with
  | [] => none
  | a :: as => some (.mk (goTrimSpace a) as target stderr append none)

/-- The operator scan of `parseInput` (command.go:33-58). `r` is the
recursive call used at a pipe split; `pre` holds the already-scanned
tokens `args[:i]` in order; the second list is `args[i:]`. A token at
the last position is skipped (`i+1 >= len(args)` continues), so the
one- and zero-token cases fall through to the terminal return
(command.go:60), which panics (`none`) only when the token list is
empty. The pipe return (command.go:54-56) takes `Name = args[0]`,
`Args = args[1:i]`; for a pipe at position 0 the Go slice `args[1:0]`
panics, modelled by `none`. -/
def scanOps (r : String → Option Command) (pre : List String) :
    List String → Option Command
  | [] =>
    (match pre with
     | [] => none
     | a :: as => some (.mk (goTrimSpace a) as "" false false none))
  | [a] =>
    (match pre ++ [a] with
     | [] => none
     | a' :: as => some (.mk (goTrimSpace a') as "" false false none))
  | a :: b :: rest =>
    if a = ">" ∨ a = "1>" then redirReturn pre b rest false false
    else if a = "2>" then redirReturn pre b rest true false
    else if a = ">>" ∨ a = "1>>" then redirReturn pre b rest false true
    else if a = "2>>" then redirReturn pre b rest true true
    else if a = "|" then
      (r (goJoin ' ' (b :: rest))).bind fun nextCmd =>
        match pre with
        | [] => none
        | p0 :: ps => some (.mk (goTrimSpace p0) ps "" false false (some nextCmd))
    else scanOps r (pre ++ [a]) (b :: rest)

/-- One unfolding of `(*Shell).parseInput` (command.go:19-61) with the
recursive pipe-split call abstracted as `r`: trim, pick the tokenizer,
scan for the first operator. -/
def parseInputStep (r : String → Option Command) (input : String) : Option Command :=
  let t := goTrimSpace input
  if t.data = [] then some emptyCommand
  else
    scanOps r [] ((tokenize t.data).map (⟨·⟩))

/-- Fuel-indexed recursion for `parseInput`: the recursive call at a pipe
split re-parses the space-joined suffix of the (already dequoted) token
list, which is strictly shorter than the current trimmed input, so
`length + 1` fuel is never exhausted on the paths evaluated below. -/
def parseInputFuel : Nat → String → Option Command
  | 0, _ => none
  | n + 1, input => parseInputStep (parseInputFuel n) input

/-- Model of `(*Shell).parseInput` (command.go:19-61). `none` models a
Go runtime panic (index/slice out of range on degenerate token lists,
e.g. input consisting only of quote characters or an operator in first
position). -/
def parseInput (input : String) : Option Command :=
  parseInputFuel (input.data.length + 1) input

/-! ## OS model: file system, stat, environment -/

/-- A file system: path to contents (`none` = file does not exist). -/
def Fs : Type := String → Option String

/-- Result of `os.Stat` as consulted by `isInPath` (helpers.go:85-86):
the permission bits of `Mode()` (low nine bits) and whether the entry is
a directory. `Mode()&0o111` only reads the low bits, so `mode` carries
just the permission part. -/
structure FileInfo where
  mode : Nat
  isDir : Bool
deriving DecidableEq

/-- Oracles and environment values consumed by the shell: `pathEnv` is
`$PATH`, `home` is `$HOME`, `histfile` is `$HISTFILE`; `stat` models
`os.Stat`, `chdirOk` tells whether `os.Chdir` succeeds on a path, and
`externalRun name args` gives the (stdout, stderr) bytes an external
process would produce. -/
structure ShellEnv where
  pathEnv : String
  home : String
  histfile : String
  stat : String → Option FileInfo
  chdirOk : String → Bool
  externalRun : String → List String → String × String

/-- Model of the mutable fields of the Go `Shell` struct used by the
claims (shell.go:13-18): the in-memory history and the `-a` cursor.
`historyAppendedCount` is a Go `int` that is only ever assigned 0 or
`len(history)`, hence `Nat`. -/
structure Shell where
  history : List String
  historyAppendedCount : Nat
deriving DecidableEq

/-- Model of `(*Shell).writeToFile` (helpers.go:93-102): truncate-create
(`os.WriteFile`) or append-create (`O_APPEND|O_CREATE|O_WRONLY`). Write
errors are swallowed in Go; the model lets writes succeed. -/
def writeToFile (fs : Fs) (path data : String) (append : Bool) : Fs :=
  if append then
    fun p => if p = path then some (((fs path).getD "") ++ data) else fs p
  else
    fun p => if p = path then some data else fs p

/-- Loop of `isInPath` over the PATH directories (helpers.go:83-89): the
first candidate whose `stat` succeeds with at least one execute bit set
is returned; there is no check that the candidate is a regular file. -/
def isInPathLoop (stat : String → Option FileInfo) (command : String) :
    List String → String
  | [] => ""
  | p :: ps =>
    let file := filepathJoin p command
    match stat file with
    | some info => if info.mode &&& 0o111 ≠ 0 then file else isInPathLoop stat command ps
    | none => isInPathLoop stat command ps

/-- Model of `(*Shell).isInPath` (helpers.go:81-91). -/
def isInPath (env : ShellEnv) (command : String) : String :=
  isInPathLoop env.stat command (goSplit ':' env.pathEnv)

/-- The keys of the `builtinCommands` map (builtins.go:12-19). -/
def builtinCommands : List String := ["type", "echo", "exit", "pwd", "cd", "history"]

/-- Model of `(*Shell).validateCommand` (command.go:113-118). -/
def validateCommand (env : ShellEnv) (name : String) : Bool :=
  builtinCommands.contains name || (isInPath env name != "")

/-! ## Builtin handlers (builtins.go) -/

/-- Model of `(*Shell).handleEcho` (builtins.go:40-50). Returns the file
system after any redirection write and the bytes written to the stage's
`stdout` writer. -/
def handleEcho (cmd : Command) (fs : Fs) : Fs × String :=
  let output := goJoin ' ' cmd.args ++ "\n"
  if cmd.redirectFile ≠ "" ∧ ¬cmd.redirectStderr then
    (writeToFile fs cmd.redirectFile output cmd.appendMode, "")
  else if cmd.redirectFile ≠ "" then
    (writeToFile fs cmd.redirectFile "" cmd.appendMode, output)
  else (fs, output)

/-- Model of `(*Shell).handleType` (builtins.go:52-66): the bytes written
to the supplied `stdout` writer. -/
def handleType (env : ShellEnv) (args : List String) : String :=
  match args with
  | [] => "no command found\n"
  | commandName :: _ =>
    let filePath := isInPath env commandName
    if builtinCommands.contains commandName then commandName ++ " is a shell builtin\n"
    else if filePath ≠ "" then commandName ++ " is " ++ filePath ++ "\n"
    else commandName ++ ": not found\n"

/-- The directory `handleCd` attempts: `$HOME` by default, the first
argument unless it is the literal `~` (builtins.go:78-81). -/
def cdTarget (env : ShellEnv) (args : List String) : String :=
  match args with
  | [] => env.home
  | a :: _ => if a = "~" then env.home else a

/-- Model of `(*Shell).handleCd` (builtins.go:77-85): given the current
working directory, returns the new working directory and the bytes
written to the supplied error writer. On `os.Chdir` failure the
directory is unchanged. (On success the model sets the working directory
to the attempted path; relative-path resolution is not modelled and no
theorem below depends on the success branch.) -/
def handleCd (env : ShellEnv) (args : List String) (cwd : String) : String × String :=
  let dir := cdTarget env args
  if env.chdirOk dir then (dir, "")
  else (cwd, "cd: " ++ dir ++ ": No such file or directory\n")

/-- Error text of `os.ReadFile` on a missing file, as printed by
`history -r` (builtins.go:96). -/
def readErrText (path : String) : String :=
  "open " ++ path ++ ": no such file or directory"

/-- One numbered line of the history listing (builtins.go:163),
`"    %d  %s\n"`. -/
def historyLine (n : Nat) (entry : String) : String :=
  "    " ++ toString n ++ "  " ++ entry ++ "\n"

/-- The listing loop of `handleHistory` (builtins.go:162-164), printing
entries `i = start, ..., len-1` numbered `i+1`. -/
def historyListing (start : Nat) : List String → String
  | [] => ""
  | e :: es => historyLine (start + 1) e ++ historyListing (start + 1) es

/-- Model of `(*Shell).handleHistory` (builtins.go:87-165). Returns the
new shell state, the file system after any write, and the bytes written
to the supplied `stdout` writer. File writes succeed in the model (the
Go error branches print and leave the state unchanged); `os.ReadFile`
fails exactly on missing files. -/
def handleHistory (args : List String) (s : Shell) (fs : Fs) : Shell × Fs × String :=
  if args.head? = some "-r" then
    if args.length < 2 then (s, fs, "history: missing argument\n")
    else
      let filePath := args.getD 1 ""
      match fs filePath with
      | none => (s, fs, "history: " ++ readErrText filePath ++ "\n")
      | some content =>
        let lines := goSplit '\n' content
        ({ s with history := s.history ++ lines.filter (· != "") }, fs, "")
  else if args.head? = some "-w" then
    if args.length < 2 then (s, fs, "history: missing argument\n")
    else
      let filePath := args.getD 1 ""
      let content := goJoin '\n' s.history ++ "\n"
      (s, writeToFile fs filePath content false, "")
  else if args.head? = some "-a" then
    if args.length < 2 then (s, fs, "history: missing argument\n")
    else
      let filePath := args.getD 1 ""
      -- O_APPEND|O_CREATE creates the file even when nothing is written
      let fsOpened := writeToFile fs filePath "" true
      let newLines := s.history.drop s.historyAppendedCount
      if newLines ≠ [] then
        let content := goJoin '\n' newLines ++ "\n"
        ({ s with historyAppendedCount := s.history.length },
         writeToFile fsOpened filePath content true, "")
      else (s, fsOpened, "")
  else
    match args with
    | [] =>
      (s, fs, historyListing 0 s.history)
    | a :: _ =>
      match goAtoi a with
      | none => (s, fs, "history: invalid number\n")
      | some num =>
        let start : Nat :=
          if 0 < num ∧ num < (s.history.length : Int) then
            s.history.length - num.toNat
          else 0
        (s, fs, historyListing start (s.history.drop start))

/-- Model of `(*Shell).handleExit` (builtins.go:21-38): returns the file
system after the `$HISTFILE` flush, the bytes printed to the process
stdout, and `some code` when `os.Exit(code)` is reached. -/
def handleExit (env : ShellEnv) (s : Shell) (fs : Fs) (args : List String) :
    Fs × String × Option Int :=
  let fs1 :=
    if env.histfile ≠ "" then
      writeToFile fs env.histfile (goJoin '\n' s.history ++ "\n") false
    else fs
  match args with
  | [] => (fs1, "", some 0)
  | a :: _ =>
    match goAtoi a with
    | none => (fs1, "incorrect command arguments", none)
    | some v => (fs1, "", some v)

/-- Model of `(*Shell).handleExternal` (builtins.go:167-192) over the
`externalRun` oracle: returns the file system after any redirection
write, the bytes written to the supplied `stdout` writer, and the bytes
written to `os.Stderr`. (Child stdin plumbing is not modelled; no claim
depends on it.) -/
def handleExternal (env : ShellEnv) (cmd : Command) (fs : Fs) : Fs × String × String :=
  let (outS, errS) := env.externalRun cmd.name cmd.args
  if cmd.redirectFile ≠ "" then
    if cmd.redirectStderr then
      -- stdout goes to the supplied writer, captured stderr to the file
      (writeToFile fs cmd.redirectFile errS cmd.appendMode, outS, "")
    else
      -- captured stdout goes to the file, stderr to os.Stderr
      (writeToFile fs cmd.redirectFile outS cmd.appendMode, "", errS)
  else (fs, outS, errS)

/-! ## The executor (`runCommand`, command.go:68-111), terminal stages -/

/-- Observable effects of one `runCommand` call: the shell state, file
system and working directory afterwards, and the bytes written to the
three distinct sinks — the `stdout io.Writer` argument (`suppliedOut`),
the process stdout used by `fmt.Printf` (`procStdout`), and
`os.Stderr` (`procStderr`). `exited` records `os.Exit`. -/
structure RunOut where
  shell : Shell
  fs : Fs
  cwd : String
  suppliedOut : String
  procStdout : String
  procStderr : String
  exited : Option Int

/-- Model of `(*Shell).runCommand` (command.go:68-111) for non-pipeline
commands. The result pairs the effects with the returned `error`
(`none` = nil on every terminal path). The `cmd.Next != nil` branch
(command.go:73-87) spawns a goroutine around an OS pipe and is outside
this sequential embedding; it is mapped to `none`. -/
def runCommand (env : ShellEnv) (s : Shell) (fs : Fs) (cwd : String)
    (cmd : Command) : Option (RunOut × Option String) :=
  let base : RunOut :=
    { shell := s, fs := fs, cwd := cwd, suppliedOut := "", procStdout := "",
      procStderr := "", exited := none }
  if cmd.name = "" then some (base, none)
  else
    match cmd.next with
    | some _ => none
    | none =>
      if ¬validateCommand env cmd.name then
        -- command.go:89-92: fmt.Printf writes to the process stdout
        some ({ base with procStdout := cmd.name ++ ": command not found\n" }, none)
      else
        match cmd.name with
        | "exit" =>
          let (fs1, pout, ex) := handleExit env s fs cmd.args
          some ({ base with fs := fs1, procStdout := pout, exited := ex }, none)
        | "echo" =>
          let (fs1, out) := handleEcho cmd fs
          some ({ base with fs := fs1, suppliedOut := out }, none)
        | "type" =>
          some ({ base with suppliedOut := handleType env cmd.args }, none)
        | "pwd" =>
          -- builtins.go:68-75 with os.Getwd succeeding (the error branch
          -- is unreachable in the model)
          some ({ base with suppliedOut := cwd ++ "\n" }, none)
        | "cd" =>
          let (cwd1, errOut) := handleCd env cmd.args cwd
          some ({ base with cwd := cwd1, procStderr := errOut }, none)
        | "history" =>
          let (s1, fs1, out) := handleHistory cmd.args s fs
          some ({ base with shell := s1, fs := fs1, suppliedOut := out }, none)
        | _ =>
          let (fs1, out, errOut) := handleExternal env cmd fs
          some ({ base with fs := fs1, suppliedOut := out, procStderr := errOut }, none)

/-! ## Helper lemmas: tokenizer -/

/-- A line without quote or backslash characters takes the fast path. -/
lemma containsQuoteChar_eq_false (l : List Char)
    (h : ∀ c ∈ l, c ≠ '\'' ∧ c ≠ '"' ∧ c ≠ '\\') :
    containsQuoteChar l = false := by
  simp only [containsQuoteChar, List.any_eq_false, Bool.or_eq_false_iff]
  intro c hc
  obtain ⟨h1, h2, h3⟩ := h c hc
  simp [h1, h2, h3]

/-- On input free of quote/backslash characters whose whitespace is only
the space character, the quote-aware scanner loop coincides with the
`strings.Fields` accumulator (same current token, tokens emitted so far
prepended). -/
lemma parseQuotedArgsLoop_plain (l : List Char) (cur : List Char)
    (acc : List (List Char))
    (h2 : ∀ c ∈ l, c ≠ '\'' ∧ c ≠ '"' ∧ c ≠ '\\')
    (h3 : ∀ c ∈ l, isGoSpace c = true → c = ' ') :
    parseQuotedArgsLoop l false (Char.ofNat 0) cur acc = acc ++ goFieldsAcc l cur := by
  induction l generalizing cur acc with
  | nil =>
    simp only [parseQuotedArgsLoop, goFieldsAcc]
    by_cases hcur : cur = [] <;> simp [hcur]
  | cons c cs ih =>
    obtain ⟨hq1, hq2, hq3⟩ := h2 c (List.mem_cons_self c cs)
    have h2' : ∀ x ∈ cs, x ≠ '\'' ∧ x ≠ '"' ∧ x ≠ '\\' :=
      fun x hx => h2 x (List.mem_cons_of_mem _ hx)
    have h3' : ∀ x ∈ cs, isGoSpace x = true → x = ' ' :=
      fun x hx => h3 x (List.mem_cons_of_mem _ hx)
    have hstep : parseQuotedArgsLoop (c :: cs) false (Char.ofNat 0) cur acc =
        if c = ' ' then
          (if cur = [] then parseQuotedArgsLoop cs false (Char.ofNat 0) [] acc
           else parseQuotedArgsLoop cs false (Char.ofNat 0) [] (acc ++ [cur]))
        else parseQuotedArgsLoop cs false (Char.ofNat 0) (cur ++ [c]) acc := by
      cases cs with
      | nil => simp [parseQuotedArgsLoop, hq1, hq2, hq3]
      | cons n rest => simp [parseQuotedArgsLoop, hq1, hq2, hq3]
    have hgf : goFieldsAcc (c :: cs) cur =
        if c = ' ' then
          (if cur = [] then goFieldsAcc cs [] else cur :: goFieldsAcc cs [])
        else goFieldsAcc cs (cur ++ [c]) := by
      by_cases hsp : c = ' '
      · subst hsp
        simp [goFieldsAcc, show isGoSpace ' ' = true from by decide]
      · have hns : isGoSpace c = false := by
          cases hgs : isGoSpace c with
          | false => rfl
          | true => exact absurd (h3 c (List.mem_cons_self c cs) hgs) hsp
        simp [goFieldsAcc, hsp, hns]
    rw [hstep, hgf]
    by_cases hsp : c = ' '
    · simp only [if_pos hsp]
      by_cases hcur : cur = []
      · simp only [if_pos hcur]
        exact ih [] acc h2' h3'
      · simp only [if_neg hcur]
        rw [ih [] (acc ++ [cur]) h2' h3', List.append_assoc, List.singleton_append]
    · simp only [if_neg hsp]
      exact ih (cur ++ [c]) acc h2' h3'

/-- C5: inside a double-quoted run (quoteChar is the double quote), a
backslash followed by a backslash or a double quote emits exactly the
escaped character and consumes both characters, while a backslash
followed by any other character emits the backslash itself literally and
leaves the following character to the normal rules; this holds at every
point of the scan (any remaining input, current token and emitted
tokens). -/
theorem double_quote_backslash_escape (n : Char) (rest : List Char) (inq : Bool)
    (cur : List Char) (acc : List (List Char)) :
    parseQuotedArgsLoop ('\\' :: n :: rest) inq '"' cur acc =
      if n = '\\' ∨ n = '"' then
        parseQuotedArgsLoop rest inq '"' (cur ++ [n]) acc
      else
        parseQuotedArgsLoop (n :: rest) inq '"' (cur ++ ['\\']) acc := by
  simp [parseQuotedArgsLoop]

/-- C3: splitting on a pipe joins the already-dequoted downstream tokens
with single spaces and re-tokenizes; the quoted token "x y" upstream
becomes the two arguments "x" and "y" of the downstream command. -/
theorem pipe_split_retokenizes :
    (tokenize (goTrimSpace "a | echo \"x y\"").data).map (fun cs => (⟨cs⟩ : String))
        = ["a", "|", "echo", "x y"] ∧
    parseInput "a | echo \"x y\"" =
      some (.mk "a" [] "" false false
        (some (.mk "echo" ["x", "y"] "" false false none))) :=
  ⟨rfl, rfl⟩

/-- C4 (amended): on a trimmed non-empty line containing none of
single-quote, double-quote, backslash, the token sequence produced by
the tokenizer equals whitespace-splitting (the fast path is taken); the
quote-aware scanner agrees with whitespace-splitting on such lines
whenever every whitespace character of the line is the space character
(the scanner splits only on spaces, while Fields splits on all Unicode
whitespace). -/
theorem tokenizer_fastpath_agreement (l : List Char)
    (htrim : goTrimChars l = l) (hne : l ≠ [])
    (h2 : ∀ c ∈ l, c ≠ '\'' ∧ c ≠ '"' ∧ c ≠ '\\')
    (h3 : ∀ c ∈ l, isGoSpace c = true → c = ' ') :
    tokenize l = goFields l ∧ parseQuotedArgs l = goFields l := by
  constructor
  · unfold tokenize
    rw [containsQuoteChar_eq_false l h2]
    simp
  · unfold parseQuotedArgs goFields
    simpa using parseQuotedArgsLoop_plain l [] [] h2 h3

/-- C4 (witness for the amended claim): a concrete space-separated line. -/
theorem tokenizer_fastpath_agreement_witness :
    tokenize "echo hi".data = goFields "echo hi".data ∧
    parseQuotedArgs "echo hi".data = goFields "echo hi".data :=
  tokenizer_fastpath_agreement "echo hi".data (by decide) (by decide)
    (by decide) (by decide)

/-- C4 (counterexample to the claim as stated): the line with a tab,
"a\tb", is trimmed, non-empty and free of quote/backslash characters;
the tokenizer (fast path) does equal whitespace-splitting on it, but the
quote-aware scanner does not: it keeps the tab inside a single token
while Fields splits on it, so the two disagree on such an input. -/
theorem tokenizer_fastpath_counterexample :
    goTrimChars "a\tb".data = "a\tb".data ∧
    (∀ c ∈ "a\tb".data, c ≠ '\'' ∧ c ≠ '"' ∧ c ≠ '\\') ∧
    tokenize "a\tb".data = goFields "a\tb".data ∧
    parseQuotedArgs "a\tb".data ≠ goFields "a\tb".data ∧
    parseQuotedArgs "a\tb".data = [['a', '\t', 'b']] ∧
    goFields "a\tb".data = [['a'], ['b']] := by
  refine ⟨by decide, by decide, ?_, by decide, by decide, by decide⟩
  decide

/-! ## Helper lemmas: the operator scan -/

/-- The seven operator tokens recognized by the scan (command.go:37-57). -/
def opTokens : List String := [">", "1>", "2>", ">>", "1>>", "2>>", "|"]

/-- The six redirection operator tokens. -/
def redirTokens : List String := [">", "1>", "2>", ">>", "1>>", "2>>"]

/-- The scan walks over a prefix of non-operator tokens, accumulating it,
as long as tokens remain after the prefix. -/
lemma scanOps_skip (r : String → Option Command) (acc skip rest : List String)
    (h : ∀ t ∈ skip, t ∉ opTokens) (hne : rest ≠ []) :
    scanOps r acc (skip ++ rest) = scanOps r (acc ++ skip) rest := by
  induction skip generalizing acc with
  | nil => simp
  | cons s skip' ih =>
    have hs : s ∉ opTokens := h s (List.mem_cons_self s skip')
    have h' : ∀ t ∈ skip', t ∉ opTokens := fun t ht => h t (List.mem_cons_of_mem _ ht)
    obtain ⟨b, l', hb⟩ : ∃ b l', skip' ++ rest = b :: l' := by
      cases hsk : skip' ++ rest with
      | nil =>
        rcases List.append_eq_nil.mp hsk with ⟨-, h2⟩
        exact absurd h2 hne
      | cons b l' => exact ⟨b, l', rfl⟩
    simp only [List.cons_append, hb, scanOps]
    simp only [opTokens, List.mem_cons, List.not_mem_nil, or_false, not_or] at hs
    obtain ⟨n1, n2, n3, n4, n5, n6, n7⟩ := hs
    rw [if_neg (by simp [n1, n2]), if_neg n3, if_neg (by simp [n4, n5]),
      if_neg n6, if_neg n7]
    rw [← hb, ih (acc ++ [s]) h']
    simp

/-- C2 (amended): in a token sequence consisting of a non-operator name
token, further non-operator tokens, then a redirection operator with a
following target token, and in which a pipe token occurs after the
operator, the scan returns (for any recursive parser `r`, which is never
consulted) the command whose redirect target is the token following the
operator, with no next stage; tokens after the consumed target — in
particular any pipe located there — remain literal arguments. (A pipe
immediately after the operator is instead consumed as the redirect
target.) -/
theorem redirect_wins_over_later_pipe (r : String → Option Command)
    (name op target : String) (pre rest : List String)
    (hop : op ∈ redirTokens)
    (hpre : ∀ t ∈ name :: pre, t ∉ opTokens)
    (hpipe : "|" ∈ target :: rest) :
    ∃ cmd, scanOps r [] (name :: pre ++ op :: target :: rest) = some cmd ∧
      cmd.name = goTrimSpace name ∧
      cmd.args = pre ++ rest ∧
      cmd.redirectFile = target ∧
      cmd.next = none ∧
      ("|" ∈ rest → "|" ∈ cmd.args) := by
  have hred : ∀ st ap, redirReturn (name :: pre) target rest st ap =
      some (.mk (goTrimSpace name) (pre ++ rest) target st ap none) := by
    intro st ap
    simp [redirReturn]
  have key : ∀ (op' : String) (st ap : Bool),
      scanOps r (name :: pre) (op' :: target :: rest) = redirReturn (name :: pre) target rest st ap →
      ∃ cmd, scanOps r [] (name :: pre ++ op' :: target :: rest) = some cmd ∧
        cmd.name = goTrimSpace name ∧ cmd.args = pre ++ rest ∧
        cmd.redirectFile = target ∧ cmd.next = none ∧ ("|" ∈ rest → "|" ∈ cmd.args) := by
    intro op' st ap hstep
    have hskip : scanOps r [] ((name :: pre) ++ (op' :: target :: rest))
        = scanOps r (name :: pre) (op' :: target :: rest) :=
      scanOps_skip r [] (name :: pre) (op' :: target :: rest) hpre (by simp)
    simp only [List.nil_append] at hskip
    refine ⟨.mk (goTrimSpace name) (pre ++ rest) target st ap none, ?_, rfl, rfl, rfl, rfl,
      fun hm => List.mem_append_right pre hm⟩
    rw [hskip, hstep, hred st ap]
  simp only [redirTokens, List.mem_cons, List.not_mem_nil, or_false] at hop
  rcases hop with rfl | rfl | rfl | rfl | rfl | rfl
  · exact key ">" false false (by simp [scanOps])
  · exact key "1>" false false (by simp [scanOps])
  · exact key "2>" true false (by simp [scanOps])
  · exact key ">>" false true (by simp [scanOps])
  · exact key "1>>" false true (by simp [scanOps])
  · exact key "2>>" true true (by simp [scanOps])

/-- C2 (witness): the token sequence of "echo hi > f | cat": the redirect
wins, f is the target, no pipeline stage is created, and the pipe stays
a literal argument; the recursive parser is never consulted (it is the
constant-none function here). -/
theorem redirect_wins_over_later_pipe_witness :
    ∃ cmd, scanOps (fun _ => none) [] ["echo", "hi", ">", "f", "|", "cat"] = some cmd ∧
      cmd.name = "echo" ∧ cmd.args = ["hi", "|", "cat"] ∧
      cmd.redirectFile = "f" ∧ cmd.next = none ∧ "|" ∈ cmd.args := by
  obtain ⟨cmd, h1, h2, h3, h4, h5, h6⟩ :=
    redirect_wins_over_later_pipe (fun _ => none) "echo" ">" "f" ["hi"] ["|", "cat"]
      (by decide) (by decide) (by decide)
  exact ⟨cmd, h1, h2, h3, h4, h5, h6 (by decide)⟩

/-- C2 (counterexample to the claim as stated): in the input
"a | b > c | d" the token sequence contains a redirection operator (at
index 3, followed by a token) at a position earlier than a pipe token
(index 5), yet parseInput returns a Command WITH a next stage: the scan
takes the first operator of any kind, and here that is the pipe at
index 1. -/
theorem redirect_wins_counterexample :
    (tokenize (goTrimSpace "a | b > c | d").data).map (fun cs => (⟨cs⟩ : String))
        = ["a", "|", "b", ">", "c", "|", "d"] ∧
    parseInput "a | b > c | d" =
      some (.mk "a" [] "" false false
        (some (.mk "b" ["|", "d"] "c" false false none))) ∧
    ((parseInput "a | b > c | d").bind Command.next).isSome = true :=
  ⟨rfl, rfl, rfl⟩

/-! ## C1: unknown command on a terminal stage -/

/-- A concrete environment with an empty PATH result: `stat` always
fails, `chdir` always fails, external processes produce nothing. -/
def envNone : ShellEnv :=
  { pathEnv := "", home := "/home/u", histfile := "", stat := fun _ => none,
    chdirOk := fun _ => false, externalRun := fun _ _ => ("", "") }

/-- The empty file system. -/
def fsEmpty : Fs := fun _ => none

/-- C1 (amended): for every terminal-stage command whose non-empty name
fails validation, runCommand writes "<name>: command not found\n" to the
process standard output (the sink of fmt.Printf), writes nothing to the
output stream supplied to the executor, leaves all state unchanged, and
returns success (nil error), so the REPL continues. -/
theorem unknown_command_not_found (env : ShellEnv) (s : Shell) (fs : Fs)
    (cwd : String) (cmd : Command)
    (hnext : cmd.next = none) (hname : cmd.name ≠ "")
    (hval : validateCommand env cmd.name = false) :
    runCommand env s fs cwd cmd =
      some ({ shell := s, fs := fs, cwd := cwd, suppliedOut := "",
              procStdout := cmd.name ++ ": command not found\n",
              procStderr := "", exited := none }, none) := by
  unfold runCommand
  rw [if_neg hname, hnext, hval]
  simp

/-- C1 (witness): the amended theorem applied to a concrete invalid
command in the empty environment. -/
theorem unknown_command_not_found_witness :
    runCommand envNone ⟨[], 0⟩ fsEmpty "/" (.mk "nosuch" [] "" false false none) =
      some ({ shell := ⟨[], 0⟩, fs := fsEmpty, cwd := "/", suppliedOut := "",
              procStdout := "nosuch: command not found\n",
              procStderr := "", exited := none }, none) :=
  unknown_command_not_found envNone ⟨[], 0⟩ fsEmpty "/"
    (.mk "nosuch" [] "" false false none) rfl (by decide) rfl

/-- C1 (counterexample to the claim as stated): for a terminal-stage
unknown command, the supplied output stream receives nothing — the
message goes to the process stdout (fmt.Printf), i.e. to another sink —
while the call still returns success (nil error). -/
theorem unknown_command_counterexample :
    ((runCommand envNone ⟨[], 0⟩ fsEmpty "/"
        (.mk "nosuch" [] "" false false none)).map (fun x => x.1.suppliedOut)
      = some "") ∧
    ((runCommand envNone ⟨[], 0⟩ fsEmpty "/"
        (.mk "nosuch" [] "" false false none)).map (fun x => x.1.procStdout)
      = some "nosuch: command not found\n") ∧
    ((runCommand envNone ⟨[], 0⟩ fsEmpty "/"
        (.mk "nosuch" [] "" false false none)).map (fun x => x.2)
      = some none) :=
  ⟨rfl, rfl, rfl⟩

/-! ## C7: cd failure semantics -/

/-- C7: when changing directory to the computed target fails, handleCd
writes exactly "cd: <path>: No such file or directory\n" to its error
writer and leaves the working directory unchanged; and the target is the
HOME value when there is no argument or the first argument is the
literal "~". -/
theorem cd_failure_leaves_cwd (env : ShellEnv) (args : List String) (cwd : String)
    (hfail : env.chdirOk (cdTarget env args) = false) :
    handleCd env args cwd =
      (cwd, "cd: " ++ cdTarget env args ++ ": No such file or directory\n") ∧
    ((args = [] ∨ args.head? = some "~") → cdTarget env args = env.home) := by
  constructor
  · simp [handleCd, hfail]
  · rintro (rfl | hh)
    · rfl
    · cases args with
      | nil => rfl
      | cons a rest =>
        simp only [List.head?_cons, Option.some.injEq] at hh
        simp [cdTarget, hh]

/-- C7 (witness): cd with no argument in an environment where every
chdir fails targets HOME, reports the documented error and keeps the
working directory. -/
theorem cd_failure_witness :
    handleCd envNone [] "/w" = ("/w", "cd: /home/u: No such file or directory\n") ∧
    cdTarget envNone [] = "/home/u" := by
  have h := cd_failure_leaves_cwd envNone [] "/w" rfl
  exact ⟨h.1, h.2 (Or.inl rfl)⟩

/-! ## C8: echo with a stderr redirect target -/

/-- C8: for an echo stage whose redirect target is set with the stderr
stream selected, the target file is still created — truncated to empty
when appendMode is false, opened for append (contents kept, nothing
added) when true — and the joined-argument text plus newline goes to the
stage's normal output stream instead of the file; other files are
untouched. -/
theorem echo_stderr_redirect_creates_empty (cmd : Command) (fs : Fs)
    (hfile : cmd.redirectFile ≠ "") (hstderr : cmd.redirectStderr = true) :
    (handleEcho cmd fs).2 = goJoin ' ' cmd.args ++ "\n" ∧
    (handleEcho cmd fs).1 cmd.redirectFile =
      some (if cmd.appendMode then (fs cmd.redirectFile).getD "" else "") ∧
    (∀ p, p ≠ cmd.redirectFile → (handleEcho cmd fs).1 p = fs p) := by
  have hnot : ¬(cmd.redirectFile ≠ "" ∧ ¬cmd.redirectStderr = true) := by
    rw [hstderr]
    simp
  unfold handleEcho writeToFile
  rw [hstderr] at hnot ⊢
  refine ⟨by simp [hnot, hfile], ?_, ?_⟩
  · cases happ : cmd.appendMode <;> simp [hnot, hfile, happ]
  · intro p hp
    cases happ : cmd.appendMode <;> simp [hnot, hfile, happ, hp]

/-- C8 (witness): a concrete echo stage redirected to a stderr target in
the truncate mode: the file becomes empty, the text goes to the normal
output. -/
theorem echo_stderr_redirect_witness :
    (handleEcho (.mk "echo" ["a", "b"] "f" true false none) fsEmpty).2 = "a b\n" ∧
    (handleEcho (.mk "echo" ["a", "b"] "f" true false none) fsEmpty).1 "f" = some "" := by
  have h := echo_stderr_redirect_creates_empty
    (.mk "echo" ["a", "b"] "f" true false none) fsEmpty (by decide) rfl
  exact ⟨h.1, h.2.1⟩

/-! ## C6: history -w then -r round trip -/

/-- goSplitChar never returns the empty list. -/
lemma goSplitChar_ne_nil (sep : Char) (l : List Char) : goSplitChar sep l ≠ [] := by
  induction l with
  | nil => simp [goSplitChar]
  | cons c cs ih =>
    by_cases hc : c = sep
    · simp [goSplitChar, hc]
    · cases hs : goSplitChar sep cs with
      | nil => exact absurd hs ih
      | cons t ts => simp [goSplitChar, hc, hs]

/-- Splitting a separator-free chunk yields that single chunk. -/
lemma goSplitChar_no_sep (sep : Char) (l : List Char) (h : sep ∉ l) :
    goSplitChar sep l = [l] := by
  induction l with
  | nil => rfl
  | cons c cs ih =>
    have hc : c ≠ sep := fun hcc => h (hcc ▸ List.mem_cons_self c cs)
    have hcs : sep ∉ cs := fun hm => h (List.mem_cons_of_mem _ hm)
    simp [goSplitChar, hc, ih hcs]

/-- Splitting a separator-free chunk followed by a separator peels the
chunk off. -/
lemma goSplitChar_chunk (sep : Char) (a rest : List Char) (h : sep ∉ a) :
    goSplitChar sep (a ++ sep :: rest) = a :: goSplitChar sep rest := by
  induction a with
  | nil => simp [goSplitChar]
  | cons c a' ih =>
    have hc : c ≠ sep := fun hcc => h (hcc ▸ List.mem_cons_self c a')
    have ha' : sep ∉ a' := fun hm => h (List.mem_cons_of_mem _ hm)
    cases hs : goSplitChar sep (a' ++ sep :: rest) with
    | nil => exact absurd hs (goSplitChar_ne_nil sep _)
    | cons t ts =>
      have := ih ha'
      rw [hs] at this
      obtain ⟨rfl, rfl⟩ : t = a' ∧ ts = goSplitChar sep rest := by
        cases this
        exact ⟨rfl, rfl⟩
      simp [goSplitChar, hc, hs]

/-- Character-level round trip: splitting the newline-joined,
newline-terminated file content back on newlines and dropping empty
lines recovers the entries, provided each entry is non-empty and
newline-free. -/
lemma split_join_chunks (ls : List (List Char))
    (h : ∀ l ∈ ls, l ≠ [] ∧ ('\n' : Char) ∉ l) :
    (goSplitChar '\n' (goJoinChars '\n' ls ++ ['\n'])).filter (· ≠ []) = ls := by
  induction ls with
  | nil => simp [goJoinChars, goSplitChar]
  | cons a ls' ih =>
    obtain ⟨hne, hnl⟩ := h a (List.mem_cons_self a ls')
    have h' : ∀ l ∈ ls', l ≠ [] ∧ ('\n' : Char) ∉ l :=
      fun l hl => h l (List.mem_cons_of_mem _ hl)
    cases ls' with
    | nil =>
      simp only [goJoinChars, goSplitChar_chunk '\n' a [] hnl]
      simp [goSplitChar, hne]
    | cons b ls'' =>
      have hjoin : goJoinChars '\n' (a :: b :: ls'') ++ ['\n']
          = a ++ '\n' :: (goJoinChars '\n' (b :: ls'') ++ ['\n']) := by
        simp [goJoinChars]
      rw [hjoin, goSplitChar_chunk '\n' a _ hnl]
      simp only [List.filter_cons]
      rw [ih h']
      simp [hne]

/-- Transport of list filtering through the String constructor. -/
lemma filter_map_mk (l : List (List Char)) :
    ((l.map (fun t => (⟨t⟩ : String))).filter (· != "")) =
      (l.filter (· ≠ [])).map (fun t => (⟨t⟩ : String)) := by
  induction l with
  | nil => rfl
  | cons t ts ih =>
    by_cases ht : t = []
    · subst ht
      simpa using ih
    · have : ((⟨t⟩ : String) != "") = true := by
        simp [bne_iff_ne, String.ext_iff, ht]
      simp only [List.map_cons, List.filter_cons, this, decide_eq_true_eq]
      rw [ih]
      simp [ht]

/-- Rebuilding a string from its character data is the identity, mapped
over a list. -/
lemma map_mk_data (l : List String) :
    (l.map String.data).map (fun t => (⟨t⟩ : String)) = l := by
  induction l with
  | nil => rfl
  | cons s ss ih => simpa using ih

/-- C6: writing the in-memory history with history -w and reading the
file back with history -r into a fresh session with empty history
reproduces exactly the same ordered entries, whenever every entry is
non-empty and newline-free. -/
theorem history_write_read_roundtrip (s : Shell) (fs : Fs) (f : String)
    (h : ∀ e ∈ s.history, e ≠ "" ∧ ('\n' : Char) ∉ e.data) :
    ((handleHistory ["-r", f] ⟨[], 0⟩ ((handleHistory ["-w", f] s fs).2.1)).1).history
      = s.history := by
  have hw : (handleHistory ["-w", f] s fs).2.1
      = writeToFile fs f (goJoin '\n' s.history ++ "\n") false := by
    simp [handleHistory]
  have hread : (writeToFile fs f (goJoin '\n' s.history ++ "\n") false) f
      = some (goJoin '\n' s.history ++ "\n") := by
    simp [writeToFile]
  rw [hw]
  have hr : ((handleHistory ["-r", f] ⟨[], 0⟩
        (writeToFile fs f (goJoin '\n' s.history ++ "\n") false)).1).history
      = List.filter (· != "") (goSplit '\n' (goJoin '\n' s.history ++ "\n")) := by
    simp [handleHistory, hread]
  rw [hr]
  have hdata : (goJoin '\n' s.history ++ "\n").data
      = goJoinChars '\n' (s.history.map String.data) ++ ['\n'] := rfl
  have hchunks : ∀ l ∈ s.history.map String.data, l ≠ [] ∧ ('\n' : Char) ∉ l := by
    intro l hl
    obtain ⟨e, he, rfl⟩ := List.mem_map.mp hl
    obtain ⟨h1, h2⟩ := h e he
    refine ⟨fun hc => h1 ?_, h2⟩
    cases e with
    | mk d => exact congrArg (fun l => (⟨l⟩ : String)) hc
  simp only [goSplit, hdata]
  rw [filter_map_mk, split_join_chunks (s.history.map String.data) hchunks, map_mk_data]

/-- C6 (witness): a concrete two-entry history round-trips through a
write and a read into a fresh session. -/
theorem history_write_read_roundtrip_witness :
    ((handleHistory ["-r", "h"] ⟨[], 0⟩
        ((handleHistory ["-w", "h"] ⟨["echo hi", "pwd"], 0⟩ fsEmpty).2.1)).1).history
      = ["echo hi", "pwd"] :=
  history_write_read_roundtrip ⟨["echo hi", "pwd"], 0⟩ fsEmpty "h" (by decide)

/-! ## C9: history state invariants -/

/-- The session operations touching history state: accepting one input
line in the REPL loop (shell.go:89 appends it), and a history builtin
invocation (listing, -r, -w, -a). -/
inductive SessionOp where
  | accept (line : String)
  | hist (args : List String)

/-- One session step: the REPL append or a handleHistory call. -/
def sessionStep (op : SessionOp) (s : Shell) (fs : Fs) : Shell × Fs :=
  match op with
  | .accept line => ({ s with history := s.history ++ [line] }, fs)
  | .hist args =>
    let r := handleHistory args s fs
    (r.1, r.2.1)

/-- C9: in every reachable state the cursor is at most the history
length (it is a Nat, so 0 <= cursor holds by type); every operation only
appends to the history sequence; and the cursor changes only under a
history -a invocation, in which case it becomes exactly the current
history length and only when unflushed entries existed. -/
theorem history_session_invariants (op : SessionOp) (s : Shell) (fs : Fs)
    (hinv : s.historyAppendedCount ≤ s.history.length) :
    (sessionStep op s fs).1.historyAppendedCount ≤ (sessionStep op s fs).1.history.length ∧
    (∃ t, (sessionStep op s fs).1.history = s.history ++ t) ∧
    ((sessionStep op s fs).1.historyAppendedCount ≠ s.historyAppendedCount →
      (∃ fp rest, op = .hist ("-a" :: fp :: rest)) ∧
      (sessionStep op s fs).1.historyAppendedCount = (sessionStep op s fs).1.history.length ∧
      s.historyAppendedCount < s.history.length) := by
  cases op with
  | accept line =>
    refine ⟨Nat.le_trans hinv (by simp [sessionStep]), ⟨[line], rfl⟩, fun hne => absurd rfl hne⟩
  | hist args =>
    have hfix : ∀ h : (sessionStep (.hist args) s fs).1 = s,
        (sessionStep (.hist args) s fs).1.historyAppendedCount
            ≤ (sessionStep (.hist args) s fs).1.history.length ∧
        (∃ t, (sessionStep (.hist args) s fs).1.history = s.history ++ t) ∧
        ((sessionStep (.hist args) s fs).1.historyAppendedCount ≠ s.historyAppendedCount →
          (∃ fp rest, SessionOp.hist args = .hist ("-a" :: fp :: rest)) ∧
          (sessionStep (.hist args) s fs).1.historyAppendedCount
              = (sessionStep (.hist args) s fs).1.history.length ∧
          s.historyAppendedCount < s.history.length) := by
      intro hid
      rw [hid]
      exact ⟨hinv, ⟨[], by simp⟩, fun hne => absurd rfl hne⟩
    by_cases h1 : args.head? = some "-r"
    · by_cases hlen : args.length < 2
      · exact hfix (by simp [sessionStep, handleHistory, h1, hlen])
      · cases hfile : fs ((args[1]?).getD "") with
        | none => exact hfix (by simp [sessionStep, handleHistory, h1, hlen, hfile])
        | some content =>
          have hid : (sessionStep (.hist args) s fs).1
              = ⟨s.history ++ (goSplit '\n' content).filter (· != ""),
                 s.historyAppendedCount⟩ := by
            simp [sessionStep, handleHistory, h1, hlen, hfile]
          rw [hid]
          exact ⟨Nat.le_trans hinv (by simp), ⟨_, rfl⟩, fun hne => absurd rfl hne⟩
    · by_cases h2 : args.head? = some "-w"
      · by_cases hlen : args.length < 2
        · exact hfix (by simp [sessionStep, handleHistory, h1, h2, hlen])
        · exact hfix (by simp [sessionStep, handleHistory, h1, h2, hlen])
      · by_cases h3 : args.head? = some "-a"
        · by_cases hlen : args.length < 2
          · exact hfix (by simp [sessionStep, handleHistory, h1, h2, h3, hlen])
          · by_cases hnew : s.history.drop s.historyAppendedCount ≠ []
            · have hid : (sessionStep (.hist args) s fs).1
                  = ⟨s.history, s.history.length⟩ := by
                simp [sessionStep, handleHistory, h1, h2, h3, hlen, hnew]
              rw [hid]
              refine ⟨le_refl _, ⟨[], by simp⟩, fun _ => ⟨?_, rfl, ?_⟩⟩
              · obtain ⟨a, rest0, rfl⟩ : ∃ a rest0, args = a :: rest0 := by
                  cases args with
                  | nil => simp at h3
                  | cons a rest0 => exact ⟨a, rest0, rfl⟩
                obtain ⟨b, rest1, rfl⟩ : ∃ b rest1, rest0 = b :: rest1 := by
                  cases rest0 with
                  | nil => simp at hlen
                  | cons b rest1 => exact ⟨b, rest1, rfl⟩
                have ha3 : a = "-a" := by simpa using h3
                exact ⟨b, rest1, by rw [ha3]⟩
              · by_contra hge
                push_neg at hge
                exact hnew (List.drop_eq_nil_of_le hge)
            · push_neg at hnew
              exact hfix (by simp [sessionStep, handleHistory, h1, h2, h3, hlen, hnew])
        · cases args with
          | nil => exact hfix (by simp [sessionStep, handleHistory])
          | cons a rest =>
            have ha1 : a ≠ "-r" := by simpa using h1
            have ha2 : a ≠ "-w" := by simpa using h2
            have ha3 : a ≠ "-a" := by simpa using h3
            cases hnum : goAtoi a with
            | none => exact hfix (by simp [sessionStep, handleHistory, ha1, ha2, ha3, hnum])
            | some num => exact hfix (by simp [sessionStep, handleHistory, ha1, ha2, ha3, hnum])

/-- C9 (witness): a concrete -a step from a state with one unflushed
entry advances the cursor to the history length. -/
theorem history_session_invariants_witness :
    (sessionStep (.hist ["-a", "f"]) ⟨["x"], 0⟩ fsEmpty).1.historyAppendedCount
        ≤ (sessionStep (.hist ["-a", "f"]) ⟨["x"], 0⟩ fsEmpty).1.history.length ∧
    (∃ t, (sessionStep (.hist ["-a", "f"]) ⟨["x"], 0⟩ fsEmpty).1.history = ["x"] ++ t) :=
  ⟨(history_session_invariants (.hist ["-a", "f"]) ⟨["x"], 0⟩ fsEmpty (by decide)).1,
   (history_session_invariants (.hist ["-a", "f"]) ⟨["x"], 0⟩ fsEmpty (by decide)).2.1⟩

/-! ## C10: path resolution -/

/-- The acceptance test of the resolver loop: stat succeeded and at
least one execute bit (0o111) is set in the mode. -/
def execBitSet (info : Option FileInfo) : Bool :=
  match info with
  | some info => info.mode &&& 0o111 != 0
  | none => false

/-- The loop of isInPath is a first-match search over the joined
candidates. -/
lemma isInPathLoop_eq_find (stat : String → Option FileInfo) (command : String)
    (dirs : List String) :
    isInPathLoop stat command dirs =
      (((dirs.map (fun p => filepathJoin p command)).find?
        (fun f => execBitSet (stat f))).getD "") := by
  induction dirs with
  | nil => rfl
  | cons p ps ih =>
    simp only [isInPathLoop, List.map_cons, List.find?_cons]
    cases hstat : stat (filepathJoin p command) with
    | none =>
      simp only [execBitSet, hstat]
      exact ih
    | some info =>
      by_cases hexec : info.mode &&& 0o111 ≠ 0
      · have hb : (info.mode &&& 0o111 != 0) = true := by simpa using hexec
        simp [execBitSet, hstat, hexec, hb]
      · simp only [ne_eq, not_not] at hexec
        have hb : (info.mode &&& 0o111 != 0) = false := by simp [hexec]
        simp only [execBitSet, hstat, hexec, hb, if_neg]
        simpa [hb] using ih

/-- A concrete environment whose PATH is "/sb" and in which the only
stat-able entry is the DIRECTORY "/sb/mydir" with mode rwxr-xr-x. -/
def envDir : ShellEnv :=
  { pathEnv := "/sb", home := "", histfile := "",
    stat := fun f => if f = "/sb/mydir" then some ⟨0o755, true⟩ else none,
    chdirOk := fun _ => false, externalRun := fun _ _ => ("", "") }

/-- C10: the resolver returns the first PATH candidate whose stat
succeeds with an execute bit set — with no check that the candidate is a
regular file — so a directory with execute permission resolves, and
validateCommand then accepts the name as a valid external command. -/
theorem isInPath_first_match_no_dir_check :
    (∀ (env : ShellEnv) (command : String),
      isInPath env command =
        ((((goSplit ':' env.pathEnv).map (fun p => filepathJoin p command)).find?
          (fun f => execBitSet (env.stat f))).getD "")) ∧
    isInPath envDir "mydir" = "/sb/mydir" ∧
    envDir.stat "/sb/mydir" = some ⟨0o755, true⟩ ∧
    (envDir.stat "/sb/mydir").any (·.isDir) = true ∧
    validateCommand envDir "mydir" = true := by
  refine ⟨fun env command => isInPathLoop_eq_find env.stat command _, rfl, rfl, rfl, ?_⟩
  decide
